import Mathlib

/-!
Shallow embedding of the dhelos-wix webhook receiver.

The definitions below are translated from the repository sources:
  * `helpers.py` — `is_valid_request`, `flat_dictionary`, `is_new_data`
  * `google_toolbox/core.py` — `refresh_and_update_token`,
    `GoogleEnv._load_oauth_credentials`
  * `main.py` — the dataset download / duplicate-check / write portion of
    `load_to_drive`

Python scalar values are modelled by `PyVal`; arbitrary JSON-like payloads
by the mutually inductive `JVal`/`JEntries`/`JList` (a mapping is an ordered
list of key-value pairs, as a Python dict is insertion ordered).  Fallible
Python code (code that can raise) is modelled with `Option`/`PyResult`.
-/

set_option autoImplicit false

namespace DhelosWix

/-- Scalar Python values that can appear as leaves of a webhook payload and
as cells of the stored dataset. -/
inductive PyVal where
  | vNone : PyVal
  | vBool : Bool → PyVal
  | vInt : Int → PyVal
  | vStr : String → PyVal
  deriving DecidableEq, Repr

/-- Python truthiness for the modelled scalar values: `None`, `False`, `0`
and the empty string are falsy. -/
def pyFalsy : PyVal → Bool
  | .vNone => true
  | .vBool b => !b
  | .vInt n => n == 0
  | .vStr s => s == ""

/-- Python `str()` on a scalar value. -/
def pyStrScalar : PyVal → String
  | .vNone => "None"
  | .vBool true => "True"
  | .vBool false => "False"
  | .vInt n => toString n
  | .vStr s => s

/-- A single quote character, used by Python `repr()` of strings. -/
def sq : String := String.singleton (Char.ofNat 39)

/-- Python `repr()` on a scalar value (strings are quoted; escaping inside
the string is not modelled — payload strings are assumed quote-free). -/
def pyReprScalar : PyVal → String
  | .vStr s => sq ++ s ++ sq
  | v => pyStrScalar v

mutual
/-- A JSON-like Python value: a scalar, a dict, or a list. -/
inductive JVal where
  | scalar : PyVal → JVal
  | dict : JEntries → JVal
  | lst : JList → JVal

/-- The ordered key-value pairs of a Python dict. -/
inductive JEntries where
  | nil : JEntries
  | cons : String → JVal → JEntries → JEntries

/-- The elements of a Python list. -/
inductive JList where
  | nil : JList
  | cons : JVal → JList → JList
end

/-- `isinstance(v, dict)`. -/
def JVal.isDict : JVal → Bool
  | .dict _ => true
  | _ => false

/-- The entries of a dict as a Lean list. -/
def JEntries.toList : JEntries → List (String × JVal)
  | .nil => []
  | .cons k v rest => (k, v) :: rest.toList

/-- The elements of a list value as a Lean list. -/
def JList.toList : JList → List JVal
  | .nil => []
  | .cons v rest => v :: rest.toList

mutual
/-- Python `str()` on a JSON-like value (containers print their elements
with `repr`, mirroring `str` on Python lists and dicts). -/
def pyStr : JVal → String
  | .scalar v => pyStrScalar v
  | .dict es => "\x7b" ++ pyStrEntries es ++ "\x7d"
  | .lst xs => "[" ++ pyStrItems xs ++ "]"

/-- Comma-joined `repr`-rendering of dict entries, as Python prints a dict. -/
def pyStrEntries : JEntries → String
  | .nil => ""
  | .cons k v .nil => sq ++ k ++ sq ++ ": " ++ pyRepr v
  | .cons k v (.cons k2 v2 rest) =>
      sq ++ k ++ sq ++ ": " ++ pyRepr v ++ ", " ++ pyStrEntries (.cons k2 v2 rest)

/-- Comma-joined `repr`-rendering of list elements, as Python prints a list. -/
def pyStrItems : JList → String
  | .nil => ""
  | .cons v .nil => pyRepr v
  | .cons v (.cons v2 rest) => pyRepr v ++ ", " ++ pyStrItems (.cons v2 rest)

/-- Python `repr()` on a JSON-like value (equal to `str` on containers). -/
def pyRepr : JVal → String
  | .scalar v => pyReprScalar v
  | .dict es => "\x7b" ++ pyStrEntries es ++ "\x7d"
  | .lst xs => "[" ++ pyStrItems xs ++ "]"
end

/-- `", ".join(str(v) for v in value)` from `flat_dictionary`. -/
def joinItems (xs : JList) : String :=
  String.intercalate ", " (xs.toList.map pyStr)

/-- A flat record: the single-level dict produced by `flat_dictionary`,
mapping path-joined keys to scalar values. -/
abbrev FlatRec := List (String × PyVal)

/-- Python `result[new_key] = v` on a dict modelled as an ordered
association list: overwrite the key in place if it exists, else append. -/
def setKey : FlatRec → String → PyVal → FlatRec
  | [], k, v => [(k, v)]
  | p :: rest, k, v => if p.1 = k then (k, v) :: rest else p :: setKey rest k v

/-- Python `result.update(nested)`: apply every binding of `n` to `m` in
order. -/
def updateAll (m : FlatRec) (n : FlatRec) : FlatRec :=
  n.foldl (fun acc p => setKey acc p.1 p.2) m

mutual
/-- The loop body of `flat_dictionary` (helpers.py lines 53-71), threading
the mutable `result` dict.  Returns `none` where the Python code raises
`AttributeError`: when a list whose first element is a dict contains a
non-dict element, `flat_dictionary(item, ...)` is called on a non-dict. -/
def flatEntries : JEntries → String → FlatRec → Option FlatRec
  | .nil, _, result => some result
  | .cons key value rest, pfx, result =>
    let new_key := if pfx == "" then key else pfx ++ "_" ++ key
    match value with
    | .dict d =>
      match flatEntries d new_key [] with
      | none => none
      | some nested => flatEntries rest pfx (updateAll result nested)
    | .lst items =>
      match items with
      | .nil => flatEntries rest pfx (setKey result new_key (.vStr ""))
      | .cons first _ =>
        if first.isDict then
          match flatDictList items new_key 0 [] with
          | none => none
          | some sub => flatEntries rest pfx (updateAll result sub)
        else flatEntries rest pfx (setKey result new_key (.vStr (joinItems items)))
    | .scalar v => flatEntries rest pfx (setKey result new_key v)

/-- The `for idx, item in enumerate(value)` loop of `flat_dictionary` for a
list whose first element is a dict.  A non-dict element has no `.items()`
and raises `AttributeError` (`none`). -/
def flatDictList : JList → String → Nat → FlatRec → Option FlatRec
  | .nil, _, _, result => some result
  | .cons item rest, key, idx, result =>
    match item with
    | .dict d =>
      match flatEntries d (key ++ "_" ++ toString idx) [] with
      | none => none
      | some nested => flatDictList rest key (idx + 1) (updateAll result nested)
    | _ => none
end

/-- `flat_dictionary(data, prefix="")` from helpers.py: flattens a nested
dict into a single-level dict; `none` models the `AttributeError` raised on
a dict-headed list containing non-dict elements. -/
def flat_dictionary (data : JEntries) (pfx : String := "") : Option FlatRec :=
  flatEntries data pfx []

example : flat_dictionary (.cons "a" (.scalar (.vInt 1)) .nil) = some [("a", .vInt 1)] := rfl

example :
    flat_dictionary
      (.cons "a" (.dict (.cons "b" (.scalar (.vInt 1)) .nil))
        (.cons "c" (.lst (.cons (.scalar (.vInt 2)) (.cons (.scalar (.vStr "x")) .nil))) .nil)) =
    some [("a_b", .vInt 1), ("c", .vStr "2, x")] := rfl

example :
    flat_dictionary
      (.cons "k" (.lst (.cons (.dict (.cons "a" (.scalar (.vInt 1)) .nil))
        (.cons (.scalar (.vInt 2)) .nil))) .nil) = none := rfl

example :
    flat_dictionary
      (.cons "k" (.lst (.cons (.dict (.cons "a" (.scalar (.vInt 1)) .nil))
        (.cons (.dict (.cons "b" (.scalar (.vInt 2)) .nil)) .nil))) .nil) =
    some [("k_0_a", .vInt 1), ("k_1_b", .vInt 2)] := rfl

mutual
/-- The contribution of a single key-value pair, written after the spec's
flattening rules (spec 4.1): a mapping is recursively flattened under
`new_key`; a non-empty sequence whose first element is a mapping is
expanded element-wise under `new_key` plus separator plus index; any other
sequence is joined into one comma-and-space-separated string; a scalar is
stored directly.  Contributions are collected by concatenation and merged
only at the end (`flattenSpec`), in contrast to the source's threaded
mutable `result`. -/
def contribSpec (key : String) (value : JVal) (pfx : String) : Option FlatRec :=
  let new_key := if pfx == "" then key else pfx ++ "_" ++ key
  match value with
  | .scalar v => some [(new_key, v)]
  | .dict d => specEntries d new_key
  | .lst items =>
    match items with
    | .nil => some [(new_key, .vStr "")]
    | .cons first _ =>
      if first.isDict then specList items new_key 0
      else some [(new_key, .vStr (joinItems items))]

/-- Concatenated contributions of all pairs of a mapping, per the spec. -/
def specEntries : JEntries → String → Option FlatRec
  | .nil, _ => some []
  | .cons k v rest, pfx =>
    match contribSpec k v pfx, specEntries rest pfx with
    | some c, some cs => some (c ++ cs)
    | _, _ => none

/-- Concatenated contributions of the elements of a mapping-headed
sequence, per the spec; an element that is not a mapping cannot be
"flattened" and yields `none`. -/
def specList : JList → String → Nat → Option FlatRec
  | .nil, _, _ => some []
  | .cons item rest, key, idx =>
    match item with
    | .dict d =>
      match specEntries d (key ++ "_" ++ toString idx), specList rest key (idx + 1) with
      | some c, some cs => some (c ++ cs)
      | _, _ => none
    | _ => none
end

/-- The flat record described by the spec's rules: all contributions in
pair order, merged last-write-wins into an initially empty record. -/
def flattenSpec (data : JEntries) (pfx : String := "") : Option FlatRec :=
  (specEntries data pfx).map (fun c => updateAll [] c)

mutual
/-- Whether a value is well formed for flattening: every sequence whose
first element is a mapping consists entirely of mappings (recursively).
On such values `flat_dictionary` cannot hit the `AttributeError` path. -/
def wfJ : JVal → Bool
  | .scalar _ => true
  | .dict d => wfEntries d
  | .lst items =>
    match items with
    | .nil => true
    | .cons first _ => if first.isDict then wfDictList items else true

/-- All values of a mapping are well formed. -/
def wfEntries : JEntries → Bool
  | .nil => true
  | .cons _ v rest => wfJ v && wfEntries rest

/-- All elements of a mapping-headed sequence are well-formed mappings. -/
def wfDictList : JList → Bool
  | .nil => true
  | .cons item rest =>
    (match item with
     | .dict d => wfEntries d
     | _ => false) && wfDictList rest
end

mutual
/-- Whether flattening a value contributes at least one key: true for
scalars and scalar sequences, and for mappings (or mapping-headed
sequences) containing at least one such leaf. -/
def contribNonempty : JVal → Bool
  | .scalar _ => true
  | .dict d => entriesNonempty d
  | .lst items =>
    match items with
    | .nil => true
    | .cons first _ => if first.isDict then listNonempty items else true

/-- Some pair of the mapping contributes a key. -/
def entriesNonempty : JEntries → Bool
  | .nil => false
  | .cons _ v rest => contribNonempty v || entriesNonempty rest

/-- Some element of the sequence contributes a key. -/
def listNonempty : JList → Bool
  | .nil => false
  | .cons item rest => contribNonempty item || listNonempty rest
end

/-- The keys of a flat record, in order. -/
def keysOf (m : FlatRec) : List String := m.map Prod.fst

/-- The effect of `setKey` on the key list: append the key if absent. -/
def keyInsert (ks : List String) (k : String) : List String :=
  if k ∈ ks then ks else ks ++ [k]

/-- The value of the last binding of `k` in `n`, if any — the binding that
survives a last-write-wins merge. -/
def lastLookup (m : FlatRec) (k : String) : Option PyVal :=
  m.foldl (fun acc p => if p.1 == k then some p.2 else acc) none

/-- A flat record with no duplicate keys; every record the source code
builds (starting from `result = {}`) satisfies this. -/
def NodupKeys (m : FlatRec) : Prop := (keysOf m).Nodup

theorem nodupKeys_nil : NodupKeys [] := by simp [NodupKeys, keysOf]

theorem lookup_eq_none_of_not_mem (m : FlatRec) (k : String) (h : k ∉ keysOf m) :
    m.lookup k = none := by
  induction m with
  | nil => rfl
  | cons p rest ih =>
    simp only [keysOf, List.map_cons, List.mem_cons, not_or] at h
    have hk : (k == p.1) = false := by
      simp only [beq_eq_false_iff_ne]
      exact h.1
    simp only [List.lookup, hk]
    exact ih (by simpa [keysOf] using h.2)

theorem keysOf_cons (p : String × PyVal) (m : FlatRec) :
    keysOf (p :: m) = p.1 :: keysOf m := rfl

theorem keys_setKey (m : FlatRec) (k : String) (v : PyVal) :
    keysOf (setKey m k v) = keyInsert (keysOf m) k := by
  induction m with
  | nil => simp [setKey, keyInsert, keysOf]
  | cons p rest ih =>
    by_cases hp : p.1 = k
    · subst hp
      rw [show setKey (p :: rest) p.1 v = (p.1, v) :: rest from by simp [setKey]]
      rw [keysOf_cons, keysOf_cons]
      unfold keyInsert
      rw [if_pos (List.mem_cons_self _ _)]
    · rw [show setKey (p :: rest) k v = p :: setKey rest k v from by simp [setKey, hp],
        keysOf_cons, ih, keysOf_cons]
      unfold keyInsert
      by_cases hmem : k ∈ keysOf rest
      · rw [if_pos hmem, if_pos (List.mem_cons.mpr (Or.inr hmem))]
      · rw [if_neg hmem, if_neg (by
          rw [List.mem_cons, not_or]
          exact ⟨fun e => hp e.symm, hmem⟩)]
        simp

theorem keys_updateAll (n m : FlatRec) :
    keysOf (updateAll m n) = (keysOf n).foldl keyInsert (keysOf m) := by
  induction n generalizing m with
  | nil => rfl
  | cons p rest ih =>
    show keysOf (updateAll (setKey m p.1 p.2) rest) = _
    rw [ih, keys_setKey]
    rfl

theorem mem_keyInsert (x k : String) (ks : List String) :
    x ∈ keyInsert ks k ↔ x ∈ ks ∨ x = k := by
  unfold keyInsert
  by_cases h : k ∈ ks
  · rw [if_pos h]
    constructor
    · exact Or.inl
    · rintro (hx | rfl)
      · exact hx
      · exact h
  · rw [if_neg h]
    simp

theorem mem_foldl_keyInsert (ks : List String) :
    ∀ (ka : List String) (x : String), x ∈ ks.foldl keyInsert ka ↔ x ∈ ka ∨ x ∈ ks := by
  induction ks with
  | nil => simp
  | cons k rest ih =>
    intro ka x
    show x ∈ rest.foldl keyInsert (keyInsert ka k) ↔ _
    rw [ih, mem_keyInsert]
    simp only [List.mem_cons]
    tauto

theorem mem_keys_updateAll (m n : FlatRec) (x : String) :
    x ∈ keysOf (updateAll m n) ↔ x ∈ keysOf m ∨ x ∈ keysOf n := by
  rw [keys_updateAll, mem_foldl_keyInsert]

theorem lookup_setKey (m : FlatRec) (k : String) (v : PyVal) (q : String) :
    (setKey m k v).lookup q = if q = k then some v else m.lookup q := by
  induction m with
  | nil =>
    by_cases hq : q = k
    · simp [setKey, List.lookup, hq]
    · have h1 : (q == k) = false := by simp [hq]
      simp [setKey, List.lookup, h1, hq]
  | cons p rest ih =>
    by_cases hp : p.1 = k
    · simp only [setKey, if_pos hp]
      by_cases hq : q = k
      · simp [List.lookup, hq]
      · have h1 : (q == k) = false := by simp [hq]
        have h2 : (q == p.1) = false := by simp [hp ▸ hq]
        simp [List.lookup, h1, h2, hq, hp]
    · simp only [setKey, if_neg hp]
      by_cases hq : q = p.1
      · have hqk : ¬ q = k := fun e => hp (hq ▸ e)
        have h1 : (q == p.1) = true := by simp [hq]
        simp [List.lookup, h1, hqk]
      · have h1 : (q == p.1) = false := by simp [hq]
        simp [List.lookup, h1, ih]

theorem lastLookup_aux (m : FlatRec) (k : String) (acc : Option PyVal) :
    m.foldl (fun a p => if p.1 == k then some p.2 else a) acc =
      match lastLookup m k with
      | some v => some v
      | none => acc := by
  induction m generalizing acc with
  | nil => rfl
  | cons p rest ih =>
    show rest.foldl _ (if p.1 == k then some p.2 else acc) = _
    rw [ih]
    conv_rhs => rw [show lastLookup (p :: rest) k =
      rest.foldl (fun a q => if q.1 == k then some q.2 else a)
        (if p.1 == k then some p.2 else none) from rfl, ih]
    cases h : lastLookup rest k <;> cases hp : p.1 == k <;> simp

theorem lastLookup_cons (p : String × PyVal) (m : FlatRec) (k : String) :
    lastLookup (p :: m) k =
      match lastLookup m k with
      | some v => some v
      | none => if p.1 == k then some p.2 else none := by
  show m.foldl _ (if p.1 == k then some p.2 else none) = _
  rw [lastLookup_aux]

theorem lookup_updateAll (n m : FlatRec) (k : String) :
    (updateAll m n).lookup k =
      match lastLookup n k with
      | some v => some v
      | none => m.lookup k := by
  induction n generalizing m with
  | nil => rfl
  | cons p rest ih =>
    show (updateAll (setKey m p.1 p.2) rest).lookup k = _
    rw [ih, lookup_setKey, lastLookup_cons]
    by_cases hk : k = p.1
    · have h1 : (p.1 == k) = true := by simp [hk]
      cases h : lastLookup rest k <;> simp [h1, hk]
    · have h1 : (p.1 == k) = false := beq_eq_false_iff_ne.mpr (Ne.symm hk)
      cases h : lastLookup rest k <;> simp [h1, hk]

theorem lastLookup_eq_none_of_not_mem (m : FlatRec) (k : String) (h : k ∉ keysOf m) :
    lastLookup m k = none := by
  induction m with
  | nil => rfl
  | cons p rest ih =>
    rw [lastLookup_cons]
    rw [keysOf_cons, List.mem_cons, not_or] at h
    rw [ih h.2]
    have h1 : (p.1 == k) = false := beq_eq_false_iff_ne.mpr (Ne.symm h.1)
    simp [h1]

theorem lastLookup_setKey (m : FlatRec) (k : String) (v : PyVal) (q : String)
    (hm : NodupKeys m) :
    lastLookup (setKey m k v) q = if q = k then some v else lastLookup m q := by
  induction m with
  | nil =>
    by_cases hq : q = k
    · simp [setKey, lastLookup, hq]
    · have h1 : (k == q) = false := beq_eq_false_iff_ne.mpr (Ne.symm hq)
      simp only [setKey, lastLookup, List.foldl, h1]
      rw [if_neg hq]
      rfl
  | cons p rest ih =>
    have hrest : NodupKeys rest := by
      unfold NodupKeys at hm ⊢
      rw [keysOf_cons] at hm
      exact (List.nodup_cons.mp hm).2
    have hpn : p.1 ∉ keysOf rest := by
      unfold NodupKeys at hm
      rw [keysOf_cons] at hm
      exact (List.nodup_cons.mp hm).1
    by_cases hp : p.1 = k
    · subst hp
      rw [show setKey (p :: rest) p.1 v = (p.1, v) :: rest from by simp [setKey]]
      rw [lastLookup_cons, lastLookup_cons]
      by_cases hq : q = p.1
      · rw [hq, lastLookup_eq_none_of_not_mem rest p.1 hpn]
        simp
      · have h1 : (p.1 == q) = false := beq_eq_false_iff_ne.mpr (Ne.symm hq)
        cases h : lastLookup rest q <;> simp [h1, hq]
    · rw [show setKey (p :: rest) k v = p :: setKey rest k v from by simp [setKey, hp],
        lastLookup_cons, lastLookup_cons, ih hrest]
      by_cases hq : q = k
      · cases h : lastLookup rest q <;> simp [hq]
      · cases h : lastLookup rest q <;> simp [hq]

theorem nodupKeys_setKey (m : FlatRec) (k : String) (v : PyVal) (h : NodupKeys m) :
    NodupKeys (setKey m k v) := by
  unfold NodupKeys at *
  rw [keys_setKey]
  unfold keyInsert
  by_cases hmem : k ∈ keysOf m
  · rw [if_pos hmem]
    exact h
  · rw [if_neg hmem]
    simp [List.nodup_append, h, hmem]

theorem nodupKeys_updateAll (n m : FlatRec) (h : NodupKeys m) :
    NodupKeys (updateAll m n) := by
  induction n generalizing m with
  | nil => exact h
  | cons p rest ih =>
    show NodupKeys (updateAll (setKey m p.1 p.2) rest)
    exact ih _ (nodupKeys_setKey m p.1 p.2 h)

theorem flatrec_ext (m : FlatRec) :
    ∀ (n : FlatRec), NodupKeys m → NodupKeys n → keysOf m = keysOf n →
      (∀ k, m.lookup k = n.lookup k) → m = n := by
  induction m with
  | nil =>
    intro n _ _ hkeys _
    cases n with
    | nil => rfl
    | cons q n' => simp [keysOf] at hkeys
  | cons p m' ih =>
    intro n hm hn hkeys hlook
    cases n with
    | nil => simp [keysOf] at hkeys
    | cons q n' =>
      rw [keysOf_cons, keysOf_cons] at hkeys
      injection hkeys with hk hkeys'
      have hv : p.2 = q.2 := by
        have h1 := hlook p.1
        have e1 : (p.1 == p.1) = true := by simp
        have e2 : (p.1 == q.1) = true := by simp [hk]
        simp [List.lookup, e1, e2] at h1
        exact h1
      have hm' : NodupKeys m' := by
        unfold NodupKeys at hm ⊢
        rw [keysOf_cons] at hm
        exact (List.nodup_cons.mp hm).2
      have hn' : NodupKeys n' := by
        unfold NodupKeys at hn ⊢
        rw [keysOf_cons] at hn
        exact (List.nodup_cons.mp hn).2
      have hpm : p.1 ∉ keysOf m' := by
        unfold NodupKeys at hm
        rw [keysOf_cons] at hm
        exact (List.nodup_cons.mp hm).1
      have hqn : q.1 ∉ keysOf n' := by
        unfold NodupKeys at hn
        rw [keysOf_cons] at hn
        exact (List.nodup_cons.mp hn).1
      have hlook' : ∀ k, m'.lookup k = n'.lookup k := by
        intro k
        by_cases hkp : k = p.1
        · rw [hkp]
          rw [lookup_eq_none_of_not_mem m' p.1 hpm,
            lookup_eq_none_of_not_mem n' p.1 (by rw [hk]; exact hqn)]
        · have h1 := hlook k
          have e1 : (k == p.1) = false := by simp [hkp]
          have e2 : (k == q.1) = false := by
            apply beq_eq_false_iff_ne.mpr
            rw [← hk]
            exact hkp
          simpa [List.lookup, e1, e2] using h1
      have : m' = n' := ih n' hm' hn' hkeys' hlook'
      calc p :: m' = (p.1, p.2) :: m' := by rfl
        _ = (q.1, q.2) :: n' := by rw [hk, hv, this]
        _ = q :: n' := by rfl

theorem keyInsert_pos (ks : List String) (k : String) (h : k ∈ ks) :
    keyInsert ks k = ks := by
  unfold keyInsert
  exact if_pos h

theorem keyInsert_neg (ks : List String) (k : String) (h : k ∉ ks) :
    keyInsert ks k = ks ++ [k] := by
  unfold keyInsert
  exact if_neg h

theorem foldl_keyInsert_keyInsert (kb ka : List String) (k : String) :
    (keyInsert kb k).foldl keyInsert ka = keyInsert (kb.foldl keyInsert ka) k := by
  by_cases h : k ∈ kb
  · rw [keyInsert_pos kb k h,
      keyInsert_pos _ k ((mem_foldl_keyInsert kb ka k).mpr (Or.inr h))]
  · rw [keyInsert_neg kb k h, List.foldl_append]
    rfl

theorem updateAll_setKey (b : FlatRec) (k : String) (v : PyVal) (a : FlatRec)
    (ha : NodupKeys a) (hb : NodupKeys b) :
    updateAll a (setKey b k v) = setKey (updateAll a b) k v := by
  apply flatrec_ext
  · exact nodupKeys_updateAll _ _ ha
  · exact nodupKeys_setKey _ _ _ (nodupKeys_updateAll _ _ ha)
  · rw [keys_updateAll, keys_setKey, keys_setKey, keys_updateAll,
      foldl_keyInsert_keyInsert]
  · intro q
    rw [lookup_updateAll, lookup_setKey, lastLookup_setKey _ _ _ _ hb]
    by_cases hq : q = k
    · simp [hq]
    · rw [if_neg hq, if_neg hq, lookup_updateAll]

theorem updateAll_updateAll (c : FlatRec) :
    ∀ (a b : FlatRec), NodupKeys a → NodupKeys b →
      updateAll a (updateAll b c) = updateAll (updateAll a b) c := by
  induction c with
  | nil => intro a b _ _; rfl
  | cons p c' ih =>
    intro a b ha hb
    show updateAll a (updateAll (setKey b p.1 p.2) c') = _
    rw [ih a (setKey b p.1 p.2) ha (nodupKeys_setKey _ _ _ hb),
      updateAll_setKey _ _ _ _ ha hb]
    rfl

theorem updateAll_collapse (a c : FlatRec) (ha : NodupKeys a) :
    updateAll a (updateAll [] c) = updateAll a c := by
  have h := updateAll_updateAll c a [] ha nodupKeys_nil
  simpa using h

theorem updateAll_append (m n1 n2 : FlatRec) :
    updateAll m (n1 ++ n2) = updateAll (updateAll m n1) n2 := by
  unfold updateAll
  rw [List.foldl_append]

theorem updateAll_cons (acc : FlatRec) (k : String) (v : PyVal) (cs : FlatRec) :
    updateAll acc ((k, v) :: cs) = updateAll (setKey acc k v) cs := rfl

mutual
/-- The threaded-result loop of the source `flat_dictionary` computes the
last-write-wins merge of the per-pair contributions described by the spec. -/
theorem flatEntries_eq_spec (es : JEntries) (pfx : String) (acc : FlatRec)
    (ha : NodupKeys acc) :
    flatEntries es pfx acc = (specEntries es pfx).map (fun c => updateAll acc c) := by
  cases es with
  | nil => rfl
  | cons key value rest =>
    cases value with
    | scalar v =>
      simp only [flatEntries, specEntries, contribSpec]
      rw [flatEntries_eq_spec rest pfx _ (nodupKeys_setKey _ _ _ ha)]
      cases h : specEntries rest pfx with
      | none => rfl
      | some cs => simp [updateAll_cons]
    | dict d =>
      simp only [flatEntries, specEntries, contribSpec]
      rw [flatEntries_eq_spec d _ [] nodupKeys_nil]
      cases h : specEntries d (if pfx == "" then key else pfx ++ "_" ++ key) with
      | none => rfl
      | some c =>
        simp only [Option.map_some']
        rw [flatEntries_eq_spec rest pfx _ (nodupKeys_updateAll _ _ ha),
          updateAll_collapse acc c ha]
        cases h2 : specEntries rest pfx with
        | none => rfl
        | some cs => simp [updateAll_append]
    | lst items =>
      cases items with
      | nil =>
        simp only [flatEntries, specEntries, contribSpec]
        rw [flatEntries_eq_spec rest pfx _ (nodupKeys_setKey _ _ _ ha)]
        cases h : specEntries rest pfx with
        | none => rfl
        | some cs => simp [updateAll_cons]
      | cons first t =>
        by_cases hd : first.isDict = true
        · simp only [flatEntries, specEntries, contribSpec, hd, if_pos]
          rw [flatDictList_eq_spec (JList.cons first t) _ 0 [] nodupKeys_nil]
          cases h : specList (JList.cons first t)
              (if pfx == "" then key else pfx ++ "_" ++ key) 0 with
          | none => rfl
          | some c =>
            simp only [Option.map_some']
            rw [flatEntries_eq_spec rest pfx _ (nodupKeys_updateAll _ _ ha),
              updateAll_collapse acc c ha]
            cases h2 : specEntries rest pfx with
            | none => rfl
            | some cs => simp [updateAll_append]
        · simp only [flatEntries, specEntries, contribSpec, hd]
          simp only [Bool.false_eq_true, if_false]
          rw [flatEntries_eq_spec rest pfx _ (nodupKeys_setKey _ _ _ ha)]
          cases h : specEntries rest pfx with
          | none => rfl
          | some cs => simp [updateAll_cons]

/-- The element loop of the source `flat_dictionary` for a mapping-headed
sequence computes the merge of the spec's per-element contributions. -/
theorem flatDictList_eq_spec (xs : JList) (key : String) (idx : Nat) (acc : FlatRec)
    (ha : NodupKeys acc) :
    flatDictList xs key idx acc = (specList xs key idx).map (fun c => updateAll acc c) := by
  cases xs with
  | nil => rfl
  | cons item rest =>
    cases item with
    | dict d =>
      simp only [flatDictList, specList]
      rw [flatEntries_eq_spec d _ [] nodupKeys_nil]
      cases h : specEntries d (key ++ "_" ++ toString idx) with
      | none => rfl
      | some c =>
        simp only [Option.map_some']
        rw [flatDictList_eq_spec rest key (idx + 1) _ (nodupKeys_updateAll _ _ ha),
          updateAll_collapse acc c ha]
        cases h2 : specList rest key (idx + 1) with
        | none => rfl
        | some cs => simp [updateAll_append]
    | scalar v => rfl
    | lst ys => rfl
end

mutual
/-- On well-formed entries the source loop never hits the raising path. -/
theorem flatEntries_isSome_of_wf (es : JEntries) (h : wfEntries es = true) :
    ∀ (pfx : String) (acc : FlatRec), (flatEntries es pfx acc).isSome = true := by
  cases es with
  | nil => intro pfx acc; rfl
  | cons key value rest =>
    intro pfx acc
    rw [show wfEntries (.cons key value rest) = (wfJ value && wfEntries rest) from rfl,
      Bool.and_eq_true] at h
    cases value with
    | scalar v =>
      exact flatEntries_isSome_of_wf rest h.2 pfx _
    | dict d =>
      have hd : wfEntries d = true := h.1
      have hsub := flatEntries_isSome_of_wf d hd
        (if pfx == "" then key else pfx ++ "_" ++ key) []
      simp only [flatEntries]
      cases hE : flatEntries d (if pfx == "" then key else pfx ++ "_" ++ key) [] with
      | none => rw [hE] at hsub; simp at hsub
      | some nested => exact flatEntries_isSome_of_wf rest h.2 pfx _
    | lst items =>
      cases items with
      | nil => exact flatEntries_isSome_of_wf rest h.2 pfx _
      | cons first t =>
        by_cases hd : first.isDict = true
        · have hwf : wfDictList (JList.cons first t) = true := by
            have := h.1
            rw [show wfJ (.lst (.cons first t)) =
              (if first.isDict then wfDictList (.cons first t) else true) from rfl,
              if_pos hd] at this
            exact this
          have hsub := flatDictList_isSome_of_wf (JList.cons first t) hwf
            (if pfx == "" then key else pfx ++ "_" ++ key) 0 []
          simp only [flatEntries, hd, if_pos]
          cases hE : flatDictList (JList.cons first t)
              (if pfx == "" then key else pfx ++ "_" ++ key) 0 [] with
          | none => rw [hE] at hsub; simp at hsub
          | some sub => exact flatEntries_isSome_of_wf rest h.2 pfx _
        · simp only [flatEntries, hd]
          simp only [Bool.false_eq_true, if_false]
          exact flatEntries_isSome_of_wf rest h.2 pfx _

/-- On a well-formed mapping-headed sequence the element loop never hits
the raising path. -/
theorem flatDictList_isSome_of_wf (xs : JList) (h : wfDictList xs = true) :
    ∀ (key : String) (idx : Nat) (acc : FlatRec),
      (flatDictList xs key idx acc).isSome = true := by
  cases xs with
  | nil => intro key idx acc; rfl
  | cons item rest =>
    intro key idx acc
    cases item with
    | dict d =>
      rw [show wfDictList (.cons (.dict d) rest) = (wfEntries d && wfDictList rest)
        from rfl, Bool.and_eq_true] at h
      have hsub := flatEntries_isSome_of_wf d h.1 (key ++ "_" ++ toString idx) []
      simp only [flatDictList]
      cases hE : flatEntries d (key ++ "_" ++ toString idx) [] with
      | none => rw [hE] at hsub; simp at hsub
      | some nested => exact flatDictList_isSome_of_wf rest h.2 key (idx + 1) _
    | scalar v => simp [wfDictList] at h
    | lst ys => simp [wfDictList] at h
end

mutual
/-- A contribution of a pair whose value has a leaf is non-empty. -/
theorem contribSpec_ne_nil (k : String) (v : JVal) (pfx : String) (c : FlatRec)
    (h : contribSpec k v pfx = some c) (hne : contribNonempty v = true) : c ≠ [] := by
  cases v with
  | scalar w =>
    simp only [contribSpec] at h
    injection h with h
    rw [← h]
    simp
  | dict d =>
    simp only [contribSpec] at h
    exact specEntries_ne_nil d _ c h hne
  | lst items =>
    cases items with
    | nil =>
      simp only [contribSpec] at h
      injection h with h
      rw [← h]
      simp
    | cons first t =>
      by_cases hd : first.isDict = true
      · simp only [contribSpec, hd, if_pos] at h
        have hne2 : listNonempty (JList.cons first t) = true := by
          rw [show contribNonempty (.lst (.cons first t)) =
            (if first.isDict then listNonempty (.cons first t) else true) from rfl,
            if_pos hd] at hne
          exact hne
        exact specList_ne_nil (JList.cons first t) _ 0 c h hne2
      · simp only [contribSpec, hd] at h
        simp only [Bool.false_eq_true, if_false] at h
        injection h with h
        rw [← h]
        simp

/-- Entries with some leaf-bearing pair contribute a non-empty record. -/
theorem specEntries_ne_nil (es : JEntries) (pfx : String) (cs : FlatRec)
    (h : specEntries es pfx = some cs) (hne : entriesNonempty es = true) : cs ≠ [] := by
  cases es with
  | nil => simp [entriesNonempty] at hne
  | cons k v rest =>
    simp only [specEntries] at h
    rw [show entriesNonempty (.cons k v rest) =
      (contribNonempty v || entriesNonempty rest) from rfl, Bool.or_eq_true] at hne
    cases hc : contribSpec k v pfx with
    | none => rw [hc] at h; simp at h
    | some c =>
      cases hr : specEntries rest pfx with
      | none => rw [hc, hr] at h; simp at h
      | some cs2 =>
        rw [hc, hr] at h
        injection h with h
        rw [← h]
        intro hnil
        rcases List.append_eq_nil.mp hnil with ⟨hcnil, hcs2nil⟩
        rcases hne with hv | hrest
        · exact contribSpec_ne_nil k v pfx c hc hv hcnil
        · exact specEntries_ne_nil rest pfx cs2 hr hrest hcs2nil

/-- A mapping-headed sequence with some leaf-bearing element contributes a
non-empty record. -/
theorem specList_ne_nil (xs : JList) (key : String) (idx : Nat) (cs : FlatRec)
    (h : specList xs key idx = some cs) (hne : listNonempty xs = true) : cs ≠ [] := by
  cases xs with
  | nil => simp [listNonempty] at hne
  | cons item rest =>
    rw [show listNonempty (.cons item rest) =
      (contribNonempty item || listNonempty rest) from rfl, Bool.or_eq_true] at hne
    cases item with
    | dict d =>
      simp only [specList] at h
      cases hc : specEntries d (key ++ "_" ++ toString idx) with
      | none => rw [hc] at h; simp at h
      | some c =>
        cases hr : specList rest key (idx + 1) with
        | none => rw [hc, hr] at h; simp at h
        | some cs2 =>
          rw [hc, hr] at h
          injection h with h
          rw [← h]
          intro hnil
          rcases List.append_eq_nil.mp hnil with ⟨hcnil, hcs2nil⟩
          rcases hne with hv | hrest
          · exact specEntries_ne_nil d _ c hc hv hcnil
          · exact specList_ne_nil rest key (idx + 1) cs2 hr hrest hcs2nil
    | scalar v => simp only [specList] at h; exact absurd h (by simp)
    | lst ys => simp only [specList] at h; exact absurd h (by simp)
end

/-- Every pair of a flattened mapping has its own successful contribution,
all of whose bindings occur among the concatenated contributions. -/
theorem specEntries_mem_contrib : ∀ (es : JEntries) (pfx : String) (cs : FlatRec),
    specEntries es pfx = some cs → ∀ (k : String) (v : JVal), (k, v) ∈ es.toList →
      ∃ c, contribSpec k v pfx = some c ∧ ∀ x ∈ c, x ∈ cs
  | .nil, pfx, cs, _, k, v, hmem => by simp [JEntries.toList] at hmem
  | .cons k1 v1 rest, pfx, cs, h, k, v, hmem => by
    simp only [specEntries] at h
    cases hc : contribSpec k1 v1 pfx with
    | none => rw [hc] at h; simp at h
    | some c1 =>
      cases hr : specEntries rest pfx with
      | none => rw [hc, hr] at h; simp at h
      | some cs2 =>
        rw [hc, hr] at h
        injection h with h
        simp only [JEntries.toList, List.mem_cons] at hmem
        rcases hmem with heq | htail
        · injection heq with hk hv
          refine ⟨c1, by rw [hk, hv]; exact hc, ?_⟩
          intro x hx
          rw [← h]
          exact List.mem_append_left cs2 hx
        · obtain ⟨c, hcs, hsub⟩ := specEntries_mem_contrib rest pfx cs2 hr k v htail
          refine ⟨c, hcs, ?_⟩
          intro x hx
          rw [← h]
          exact List.mem_append_right c1 (hsub x hx)

/-- A pandas DataFrame as used by `is_new_data`: a column schema plus
ordered rows, each row an association of column name to cell value. -/
structure DataFrame where
  columns : List String
  rows : List (List (String × PyVal))
  deriving DecidableEq, Repr

/-- `df[col].iloc[-1]`: the value of `col` on the last row (only read by
`is_new_data` after checking the frame is non-empty and the column
exists). -/
def DataFrame.lastValue (df : DataFrame) (col : String) : PyVal :=
  match df.rows.getLast? with
  | some r => (r.lookup col).getD .vNone
  | none => .vNone

/-- `is_new_data(df, new_data, compare_col)` from helpers.py lines 74-111:
true on an empty frame; false when `new_data.get(compare_col)` is falsy
(`if not new_data_compare_value`), false when the column is absent from the
frame, else true iff the two values' `str()` forms differ. -/
def is_new_data (df : DataFrame) (new_data : FlatRec) (compare_col : String) : Bool :=
  if df.rows.isEmpty then true
  else
    let new_data_compare_value := (new_data.lookup compare_col).getD .vNone
    if pyFalsy new_data_compare_value then false
    else if !(df.columns.contains compare_col) then false
    else pyStrScalar new_data_compare_value != pyStrScalar (df.lastValue compare_col)

example : is_new_data ⟨["f"], []⟩ [("f", .vStr "a")] "f" = true := rfl
example : is_new_data ⟨["f"], [[("f", .vStr "a")]]⟩ [("f", .vStr "a")] "f" = false := rfl
example : is_new_data ⟨["f"], [[("f", .vStr "a")]]⟩ [("f", .vStr "b")] "f" = true := rfl
example : is_new_data ⟨["f"], [[("f", .vStr "a")]]⟩ [("f", .vInt 0)] "f" = false := rfl
example : is_new_data ⟨["g"], [[("g", .vStr "a")]]⟩ [("f", .vStr "b")] "f" = false := rfl

/-- Outcome of Python code modelled together with the exception it may
raise: either a value or a raised exception, named by a message. -/
inductive PyResult (α : Type) where
  | ok : α → PyResult α
  | raised : String → PyResult α
  deriving DecidableEq, Repr

/-- A Flask error response as built by `flask_responses.error_response`:
status code and message. -/
structure ErrResp where
  status : Nat
  message : String
  deriving DecidableEq, Repr

/-- What `request.get_json(silent=False)` did: returned a JSON value,
returned `None` (body was JSON `null`), or raised. -/
inductive ParseOutcome where
  | value : JVal → ParseOutcome
  | nullValue : ParseOutcome
  | failure : String → ParseOutcome

/-- `is_valid_request(request)` from helpers.py lines 22-45.  The non-POST
branch assigns a 405 `bad_response` but does not return it; when the body
parses, `(None, data)` is returned regardless of the method; when the body
is JSON `null` the `ValueError` is caught and the 400 response returned;
when `get_json` raises, the final `return (bad_response, data)` reads the
never-assigned local `data` and raises `UnboundLocalError`. -/
def is_valid_request (method : String) (parse : ParseOutcome) :
    PyResult (Option ErrResp × Option JVal) :=
  match parse with
  | .value j => .ok (none, some j)
  | .nullValue => .ok (some ⟨400, "Invalid JSON: Empty request body"⟩, none)
  | .failure _ => .raised "UnboundLocalError"

/-- `load_to_drive` proceeds into the main ingestion flow exactly when
`is_valid_request` returned no bad response (main.py lines 57-59). -/
def proceeds_to_main_flow (r : PyResult (Option ErrResp × Option JVal)) : Bool :=
  match r with
  | .ok (none, _) => true
  | _ => false

/-- What `drive.download_file(parquet_file_id)` followed by
`pd.read_parquet` did: a buffer whose decoding yields a frame or raises, no
buffer (`download_file` caught an `HttpError` and returned `None`), or an
exception raised by the download call itself. -/
inductive DownloadOutcome where
  | buffer : Except String DataFrame → DownloadOutcome
  | noBuffer : DownloadOutcome
  | raised : String → DownloadOutcome

/-- Result of the dataset-resolution step of `load_to_drive`. -/
inductive StepOutcome where
  | errorEnvelope : String → StepOutcome
  | proceed : DataFrame → Bool → StepOutcome
  deriving DecidableEq, Repr

/-- Step 1/2 of `load_to_drive` (main.py lines 141-172): when a parquet
file id is known, download it; a decoded frame is checked with
`is_new_data`; a `None` buffer is treated as the new-file case (empty
frame, `update_df = True`); an exception inside the `try` produces the
"Failed to download parquet" error envelope.  Without a file id an empty
frame is synthesized. -/
def load_to_drive_dataset_step (fileIdKnown : Bool) (dl : DownloadOutcome)
    (flat_data : FlatRec) (filter_field : String) : StepOutcome :=
  if fileIdKnown then
    match dl with
    | .buffer (.ok df) => .proceed df (is_new_data df flat_data filter_field)
    | .buffer (.error e) => .errorEnvelope ("Failed to download parquet: " ++ e)
    | .noBuffer => .proceed ⟨[], []⟩ true
    | .raised e => .errorEnvelope ("Failed to download parquet: " ++ e)
  else .proceed ⟨[], []⟩ true

/-- Final outcome of one `load_to_drive` invocation past the dataset step. -/
inductive HandlerOutcome where
  | errorEnv : String → HandlerOutcome
  | skipped : HandlerOutcome
  | wroteRows : Nat → HandlerOutcome
  deriving DecidableEq, Repr

/-- Steps 3-4 of `load_to_drive` (main.py lines 174-211): when no update is
needed, the skipped response; otherwise the new row is appended
(`pd.concat`) and both formats uploaded — an upload exception propagates
uncaught (`none`). -/
def load_to_drive_after_dataset (uploadOk : Bool) : StepOutcome → Option HandlerOutcome
  | .errorEnvelope m => some (.errorEnv m)
  | .proceed df update_df =>
    if !update_df then some .skipped
    else if uploadOk then some (.wroteRows (df.rows.length + 1))
    else none

/-- The dataset-handling portion of `load_to_drive`, composed. -/
def load_to_drive_handle_dataset (fileIdKnown : Bool) (dl : DownloadOutcome)
    (flat_data : FlatRec) (filter_field : String) (uploadOk : Bool) :
    Option HandlerOutcome :=
  load_to_drive_after_dataset uploadOk
    (load_to_drive_dataset_step fileIdKnown dl flat_data filter_field)

/-- OAuth user credentials as far as `_load_oauth_credentials` inspects
them: access token, expiry flag, refresh token. -/
structure OAuthCreds where
  token : Option String
  expired : Bool
  refresh_token : Option String
  deriving DecidableEq, Repr

/-- `creds.valid` from google-auth: a token is present and not expired. -/
def OAuthCreds.valid (c : OAuthCreds) : Bool :=
  c.token.isSome && !c.expired

/-- Python truthiness of an optional string (`None` and `""` are falsy). -/
def truthyStr : Option String → Bool
  | none => false
  | some s => !(s == "")

/-- What `creds.refresh(Request())` did: a new access token, or a raised
exception. -/
inductive RefreshOutcome where
  | success : String → RefreshOutcome
  | failure : String → RefreshOutcome
  deriving DecidableEq, Repr

/-- `refresh_and_update_token(creds, project_id, secret_name)` from
google_toolbox/core.py lines 49-111: one `creds.refresh` call; on success,
the Secret Manager push is attempted iff both `project_id` and
`secret_name` are truthy, and its failure is caught and logged — the
refreshed credentials are returned either way; a refresh failure
re-raises.  Returns the credentials together with whether the push was
attempted. -/
def refresh_and_update_token (creds : OAuthCreds)
    (project_id secret_name : Option String)
    (refresh : RefreshOutcome) (pushOk : Bool) : PyResult (OAuthCreds × Bool) :=
  match refresh with
  | .failure m => .raised m
  | .success tok =>
    let refreshed : OAuthCreds := { creds with token := some tok, expired := false }
    let pushAttempted := truthyStr project_id && truthyStr secret_name
    .ok (refreshed, pushAttempted)

/-- The two `ValueError` raise sites of step 4 of `_load_oauth_credentials`
(core.py lines 247-256): a supplied-but-unusable token ("OAuth token is
expired and refresh failed") versus no token and no client file at all
("OAuth requires a client credentials JSON file"). -/
inductive AuthError where
  | tokenExpiredNoRefresh : AuthError
  | grantRequired : AuthError
  deriving DecidableEq, Repr

/-- The observable result of `_load_oauth_credentials`: the credentials or
the raised error, with how many refresh attempts were made and whether the
secret-store push was attempted. -/
structure OAuthLoadResult where
  creds : Except AuthError OAuthCreds
  refreshAttempts : Nat
  pushAttempted : Bool

/-- `GoogleEnv._load_oauth_credentials` from core.py lines 200-272, with
the environment-dependent inputs made explicit: the inline token, the
client-credentials file path, the cached token file (absent, corrupt, or
loaded), the Secret Manager coordinates, and oracles for the refresh call,
the secret push and the interactive flow. -/
def load_oauth_credentials (oauth_token : Option OAuthCreds)
    (json_credentials : Option String)
    (cachedFile : Option (Except String OAuthCreds))
    (secret_project_id secret_name : Option String)
    (refresh : RefreshOutcome) (pushOk : Bool)
    (flowResult : OAuthCreds) : OAuthLoadResult :=
  let creds0 : Option OAuthCreds :=
    match oauth_token with
    | some t => some t
    | none =>
      match cachedFile with
      | some (.ok c) => some c
      | _ => none
  let step3 : Option OAuthCreds × Nat × Bool :=
    match creds0 with
    | some c =>
      if c.expired && truthyStr c.refresh_token then
        match refresh_and_update_token c secret_project_id secret_name refresh pushOk with
        | .ok (c2, pushed) => (some c2, 1, pushed)
        | .raised _ => (none, 1, false)
      else (some c, 0, false)
    | none => (none, 0, false)
  match step3 with
  | (credsAfter, attempts, pushed) =>
    match credsAfter with
    | some c =>
      if c.valid then ⟨.ok c, attempts, pushed⟩
      else
        match json_credentials with
        | none =>
          if oauth_token.isSome then ⟨.error .tokenExpiredNoRefresh, attempts, pushed⟩
          else ⟨.error .grantRequired, attempts, pushed⟩
        | some _ => ⟨.ok flowResult, attempts, pushed⟩
    | none =>
      match json_credentials with
      | none =>
        if oauth_token.isSome then ⟨.error .tokenExpiredNoRefresh, attempts, pushed⟩
        else ⟨.error .grantRequired, attempts, pushed⟩
      | some _ => ⟨.ok flowResult, attempts, pushed⟩

example :
    load_oauth_credentials (some ⟨some "t", true, some "r"⟩) none none
      (some "p") (some "s") (.success "new") false ⟨none, false, none⟩ =
    ⟨.ok ⟨some "new", false, some "r"⟩, 1, true⟩ := rfl

example :
    load_oauth_credentials (some ⟨some "t", true, none⟩) none none
      none none (.success "new") true ⟨none, false, none⟩ =
    ⟨.error .tokenExpiredNoRefresh, 0, false⟩ := rfl

example :
    load_oauth_credentials none none none
      none none (.success "new") true ⟨none, false, none⟩ =
    ⟨.error .grantRequired, 0, false⟩ := rfl

/-- C1 counterexample: with one stored row whose `f` stringifies to "1" and
a candidate whose `f` is the integer 0 — present, neither empty nor absent,
and stringifying differently — the claim demands `true` but `is_new_data`
returns `false` (the code tests Python falsiness, not emptiness/absence). -/
theorem is_new_data_zero_not_new_counterexample :
    (⟨["f"], [[("f", PyVal.vStr "1")]]⟩ : DataFrame).rows ≠ [] ∧
    List.lookup "f" [("f", PyVal.vInt 0)] = some (PyVal.vInt 0) ∧
    "f" ∈ (⟨["f"], [[("f", PyVal.vStr "1")]]⟩ : DataFrame).columns ∧
    pyStrScalar (PyVal.vInt 0) ≠
      pyStrScalar ((⟨["f"], [[("f", PyVal.vStr "1")]]⟩ : DataFrame).lastValue "f") ∧
    is_new_data ⟨["f"], [[("f", PyVal.vStr "1")]]⟩ [("f", PyVal.vInt 0)] "f" = false := by
  refine ⟨by decide, rfl, by decide, by decide, rfl⟩

/-- C1 (amended): `is_new_data` returns true on an empty dataset; false
when the candidate's comparison value is falsy (absent, `None`, empty
string, zero or false) or when the field is not among the columns; and
otherwise true iff the string representations of the candidate value and
the last row's value differ. -/
theorem is_new_data_decision_characterization (df : DataFrame) (c : FlatRec) (f : String) :
    (df.rows = [] → is_new_data df c f = true) ∧
    (df.rows ≠ [] → pyFalsy ((c.lookup f).getD .vNone) = true →
      is_new_data df c f = false) ∧
    (df.rows ≠ [] → pyFalsy ((c.lookup f).getD .vNone) = false →
      df.columns.contains f = false → is_new_data df c f = false) ∧
    (df.rows ≠ [] → pyFalsy ((c.lookup f).getD .vNone) = false →
      df.columns.contains f = true →
      (is_new_data df c f = true ↔
        pyStrScalar ((c.lookup f).getD .vNone) ≠ pyStrScalar (df.lastValue f))) := by
  refine ⟨?_, ?_, ?_, ?_⟩
  · intro h
    unfold is_new_data
    rw [if_pos (by simp [h])]
  · intro h hf
    unfold is_new_data
    rw [if_neg (by simp [List.isEmpty_iff]; exact h)]
    simp [hf]
  · intro h hf hcol
    have hmem : f ∉ df.columns := by simpa using hcol
    unfold is_new_data
    rw [if_neg (by simp [List.isEmpty_iff]; exact h)]
    simp [hf, hmem]
  · intro h hf hcol
    have hmem : f ∈ df.columns := by simpa using hcol
    unfold is_new_data
    rw [if_neg (by simp [List.isEmpty_iff]; exact h)]
    simp [hf, hmem, bne_iff_ne]

/-- Witness for the C1 theorem at a concrete input. -/
theorem is_new_data_decision_characterization_witness :
    is_new_data ⟨["f"], [[("f", PyVal.vStr "1")]]⟩ [("f", PyVal.vStr "2")] "f" = true :=
  ((is_new_data_decision_characterization ⟨["f"], [[("f", PyVal.vStr "1")]]⟩
    [("f", PyVal.vStr "2")] "f").2.2.2 (by decide) (by decide) (by decide)).mpr (by decide)

/-- C6 counterexample: with one stored row whose `f` stringifies to "True"
and a truthy-claim-relevant candidate value `False` — whose string form
differs — the claim demands `true`, but the candidate value is falsy and
`is_new_data` returns `false`. -/
theorem is_new_data_duplicate_iff_counterexample :
    (⟨["f"], [[("f", PyVal.vStr "True")]]⟩ : DataFrame).rows ≠ [] ∧
    List.lookup "f" [("f", PyVal.vBool false)] = some (PyVal.vBool false) ∧
    pyStrScalar (PyVal.vBool false) ≠
      pyStrScalar ((⟨["f"], [[("f", PyVal.vStr "True")]]⟩ : DataFrame).lastValue "f") ∧
    is_new_data ⟨["f"], [[("f", PyVal.vStr "True")]]⟩ [("f", PyVal.vBool false)] "f" =
      false := by
  refine ⟨by decide, rfl, by decide, rfl⟩

/-- C6 (amended): on a dataset with at least one row whose columns include
the comparison field, and a candidate whose comparison value is present and
truthy, `is_new_data` returns false iff the candidate value stringifies
identically to the last row's value. -/
theorem is_new_data_duplicate_iff (df : DataFrame) (c : FlatRec) (f : String) (v : PyVal)
    (h0 : df.rows ≠ []) (h1 : c.lookup f = some v) (h2 : pyFalsy v = false)
    (h3 : df.columns.contains f = true) :
    (is_new_data df c f = false ↔ pyStrScalar v = pyStrScalar (df.lastValue f)) := by
  have hmem : f ∈ df.columns := by simpa using h3
  unfold is_new_data
  rw [if_neg (by simp [List.isEmpty_iff]; exact h0)]
  simp [h1, h2, hmem]

/-- Witness for the C6 theorem at a concrete input. -/
theorem is_new_data_duplicate_iff_witness :
    is_new_data ⟨["f"], [[("f", PyVal.vStr "x")]]⟩ [("f", PyVal.vStr "x")] "f" = false :=
  (is_new_data_duplicate_iff ⟨["f"], [[("f", PyVal.vStr "x")]]⟩ [("f", PyVal.vStr "x")]
    "f" (PyVal.vStr "x") (by decide) rfl rfl rfl).mpr (by decide)

/-- C10 counterexample: the claim quantifies over every dataset, but on a
dataset with zero rows `is_new_data` returns `true` even for a present,
falsy candidate value. -/
theorem is_new_data_falsy_empty_df_counterexample :
    List.lookup "f" [("f", PyVal.vInt 0)] = some (PyVal.vInt 0) ∧
    pyFalsy (PyVal.vInt 0) = true ∧
    is_new_data ⟨[], []⟩ [("f", PyVal.vInt 0)] "f" = true :=
  ⟨rfl, rfl, rfl⟩

/-- C10 (amended): on a dataset with at least one row, a present but falsy
candidate comparison value makes `is_new_data` return false regardless of
the stored data. -/
theorem is_new_data_falsy_not_new (df : DataFrame) (c : FlatRec) (f : String) (v : PyVal)
    (h0 : df.rows ≠ []) (h1 : c.lookup f = some v) (h2 : pyFalsy v = true) :
    is_new_data df c f = false := by
  unfold is_new_data
  rw [if_neg (by simp [List.isEmpty_iff]; exact h0)]
  simp [h1, h2]

/-- Witness for the C10 theorem at a concrete input. -/
theorem is_new_data_falsy_not_new_witness :
    is_new_data ⟨["f"], [[("f", PyVal.vStr "1")]]⟩ [("f", PyVal.vNone)] "f" = false :=
  is_new_data_falsy_not_new ⟨["f"], [[("f", PyVal.vStr "1")]]⟩ [("f", PyVal.vNone)] "f"
    PyVal.vNone (by decide) rfl rfl

/-- C2: `flat_dictionary` builds exactly the flat record described by the
spec's rules — for each pair, a mapping is recursively flattened under the
path-joined key and merged; a non-empty mapping-headed sequence is expanded
element-wise under the key plus separator plus index; any other sequence is
joined into one comma-and-space string; a scalar is stored directly (with
the bare key at the root). -/
theorem flatten_follows_spec_rules (data : JEntries) (pfx : String) :
    flat_dictionary data pfx = flattenSpec data pfx := by
  unfold flat_dictionary flattenSpec
  exact flatEntries_eq_spec data pfx [] nodupKeys_nil

/-- C4 counterexample: with a known file id and a download that failed
(`download_file` returned `None` after catching the HTTP error), the
invocation does not produce an error envelope — it appends and writes a
row, contradicting "every download failure is fatal". -/
theorem dataset_download_none_writes_counterexample :
    load_to_drive_handle_dataset true .noBuffer [("f", PyVal.vStr "x")] "f" true =
      some (.wroteRows 1) := rfl

/-- C4 (amended): with a known dataset file id, a download call that raises
or a buffer that fails to decode is fatal (error envelope, no row written);
but a download failure reported as a `None` buffer is treated as the
new-file case: an empty dataset is synthesized and the row is appended and
written. -/
theorem dataset_failure_fatality (m : String) (flat : FlatRec) (f : String)
    (uploadOk : Bool) :
    load_to_drive_handle_dataset true (.raised m) flat f uploadOk =
      some (.errorEnv ("Failed to download parquet: " ++ m)) ∧
    load_to_drive_handle_dataset true (.buffer (.error m)) flat f uploadOk =
      some (.errorEnv ("Failed to download parquet: " ++ m)) ∧
    load_to_drive_handle_dataset true .noBuffer flat f uploadOk =
      (if uploadOk then some (.wroteRows 1) else none) := by
  refine ⟨rfl, rfl, ?_⟩
  cases uploadOk <;> rfl

/-- C5 (code bug): the validator lets a GET request with a JSON-parsable
body through to the main flow (the 405 response is assigned but never
returned), and on an unparsable body it raises `UnboundLocalError` instead
of returning a 400 envelope — for any method. -/
theorem invalid_request_validator_bug :
    is_valid_request "GET" (.value (JVal.dict (.cons "data" (.dict .nil) .nil))) =
      .ok (none, some (JVal.dict (.cons "data" (.dict .nil) .nil))) ∧
    proceeds_to_main_flow (is_valid_request "GET"
      (.value (JVal.dict (.cons "data" (.dict .nil) .nil)))) = true ∧
    is_valid_request "POST" (.failure "Expecting value") = .raised "UnboundLocalError" ∧
    is_valid_request "GET" (.failure "Expecting value") = .raised "UnboundLocalError" :=
  ⟨rfl, rfl, rfl, rfl⟩

/-- C3: a delegated-user build whose supplied token is expired with a
refresh token present makes exactly one refresh attempt; on refresh success
the secret-store push is attempted iff both the project id and the secret
name are configured, and the refreshed in-memory credential is returned
whether or not the push succeeded. -/
theorem oauth_refresh_once_push_policy
    (t : OAuthCreds) (jc : Option String) (cf : Option (Except String OAuthCreds))
    (proj sec : Option String) (rr : RefreshOutcome) (pushOk : Bool) (fl : OAuthCreds)
    (hexp : t.expired = true) (hrt : truthyStr t.refresh_token = true) :
    (load_oauth_credentials (some t) jc cf proj sec rr pushOk fl).refreshAttempts = 1 ∧
    ∀ tok, rr = .success tok →
      (load_oauth_credentials (some t) jc cf proj sec rr pushOk fl).pushAttempted =
        (truthyStr proj && truthyStr sec) ∧
      (load_oauth_credentials (some t) jc cf proj sec rr pushOk fl).creds =
        .ok { t with token := some tok, expired := false } := by
  cases rr with
  | success tok =>
    refine ⟨?_, ?_⟩
    · simp [load_oauth_credentials, refresh_and_update_token, hexp, hrt,
        OAuthCreds.valid]
    · intro tok2 h
      injection h with h2
      subst h2
      refine ⟨?_, ?_⟩
      · simp [load_oauth_credentials, refresh_and_update_token, hexp, hrt,
          OAuthCreds.valid]
      · simp [load_oauth_credentials, refresh_and_update_token, hexp, hrt,
          OAuthCreds.valid]
  | failure m =>
    refine ⟨?_, ?_⟩
    · simp only [load_oauth_credentials, refresh_and_update_token, hexp, hrt,
        Bool.and_self, if_true, Bool.true_and, if_pos]
      cases jc <;> rfl
    · intro tok h
      exact absurd h (by simp)

/-- Witness for the C3 theorem at a concrete input. -/
theorem oauth_refresh_once_push_policy_witness :
    (load_oauth_credentials (some ⟨some "t", true, some "r"⟩) none none (some "p")
      (some "s") (.success "new") false ⟨none, false, none⟩).refreshAttempts = 1 ∧
    (load_oauth_credentials (some ⟨some "t", true, some "r"⟩) none none (some "p")
      (some "s") (.success "new") false ⟨none, false, none⟩).pushAttempted = true ∧
    (load_oauth_credentials (some ⟨some "t", true, some "r"⟩) none none (some "p")
      (some "s") (.success "new") false ⟨none, false, none⟩).creds =
      .ok ⟨some "new", false, some "r"⟩ := by
  have h := oauth_refresh_once_push_policy ⟨some "t", true, some "r"⟩ none none
    (some "p") (some "s") (.success "new") false ⟨none, false, none⟩ rfl rfl
  have h3 := h.2 "new" rfl
  refine ⟨h.1, ?_, h3.2⟩
  rw [h3.1]
  rfl

/-- C7: a delegated-user build with an expired token, no refresh token and
no client-credentials document fails at the token-expired raise site, which
is distinct from the grant-required raise site hit when no token and no
cached token exist at all. -/
theorem oauth_expired_vs_grant_distinct
    (t : OAuthCreds) (cf : Option (Except String OAuthCreds))
    (proj sec : Option String) (rr : RefreshOutcome) (pushOk : Bool) (fl : OAuthCreds)
    (hexp : t.expired = true) (hrt : truthyStr t.refresh_token = false) :
    (load_oauth_credentials (some t) none cf proj sec rr pushOk fl).creds =
      .error .tokenExpiredNoRefresh ∧
    (load_oauth_credentials none none none proj sec rr pushOk fl).creds =
      .error .grantRequired ∧
    AuthError.tokenExpiredNoRefresh ≠ AuthError.grantRequired := by
  refine ⟨?_, rfl, by decide⟩
  simp [load_oauth_credentials, hexp, hrt, OAuthCreds.valid]

/-- Witness for the C7 theorem at a concrete input. -/
theorem oauth_expired_vs_grant_distinct_witness :
    (load_oauth_credentials (some ⟨some "t", true, none⟩) none none none none
      (.failure "x") true ⟨none, false, none⟩).creds = .error .tokenExpiredNoRefresh ∧
    (load_oauth_credentials none none none none none (.failure "x") true
      ⟨none, false, none⟩).creds = .error .grantRequired := by
  have h := oauth_expired_vs_grant_distinct ⟨some "t", true, none⟩ none none none
    (.failure "x") true ⟨none, false, none⟩ rfl rfl
  exact ⟨h.1, h.2.1⟩

/-- C8 counterexample: in the payload with the single key "a" mapped to an
empty mapping, the key contributes no key at all to the flat output. -/
theorem flatten_empty_dict_drops_key_counterexample :
    (JEntries.cons "a" (.dict .nil) .nil).toList.map Prod.fst = ["a"] ∧
    flat_dictionary (.cons "a" (.dict .nil) .nil) "" = some [] :=
  ⟨rfl, rfl⟩

/-- C8 (amended): whenever flattening succeeds, every key-value pair whose
value contains at least one leaf (a scalar or a scalar sequence, possibly
nested) has a non-empty contribution, and all its contributed keys appear
among the output's keys; pairs whose value is a leafless mapping structure
contribute nothing. -/
theorem flatten_contribution_keys (es : JEntries) (pfx : String) (r : FlatRec)
    (k : String) (v : JVal) (hflat : flat_dictionary es pfx = some r)
    (hmem : (k, v) ∈ es.toList) (hne : contribNonempty v = true) :
    ∃ c, contribSpec k v pfx = some c ∧ c ≠ [] ∧
      ∀ k2 ∈ keysOf c, k2 ∈ keysOf r := by
  have heq := flatEntries_eq_spec es pfx [] nodupKeys_nil
  rw [show flat_dictionary es pfx = flatEntries es pfx [] from rfl, heq] at hflat
  cases hs : specEntries es pfx with
  | none => rw [hs] at hflat; simp at hflat
  | some cs =>
    rw [hs] at hflat
    simp only [Option.map_some'] at hflat
    injection hflat with hflat
    obtain ⟨c, hc, hsub⟩ := specEntries_mem_contrib es pfx cs hs k v hmem
    refine ⟨c, hc, contribSpec_ne_nil k v pfx c hc hne, ?_⟩
    intro k2 hk2
    have hcs : k2 ∈ keysOf cs := by
      simp only [keysOf, List.mem_map] at hk2 ⊢
      obtain ⟨p, hp, hpk⟩ := hk2
      exact ⟨p, hsub p hp, hpk⟩
    rw [← hflat]
    exact (mem_keys_updateAll [] cs k2).mpr (Or.inr hcs)

/-- Witness for the C8 theorem at a concrete input. -/
theorem flatten_contribution_keys_witness :
    ∃ c, contribSpec "a" (JVal.scalar (PyVal.vInt 1)) "" = some c ∧ c ≠ [] ∧
      ∀ k2 ∈ keysOf c, k2 ∈ keysOf [("a", PyVal.vInt 1)] :=
  flatten_contribution_keys (.cons "a" (.scalar (.vInt 1)) .nil) "" [("a", PyVal.vInt 1)]
    "a" (.scalar (.vInt 1)) rfl (by simp [JEntries.toList]) rfl

/-- C9 counterexample: on a payload containing a sequence whose first
element is a mapping but whose second element is a scalar, `flat_dictionary`
does not return a flat record — the Python code raises `AttributeError`
calling `.items()` on the scalar. -/
theorem flatten_mixed_list_raises_counterexample :
    flat_dictionary (.cons "k" (.lst (.cons (.dict (.cons "a" (.scalar (.vInt 1)) .nil))
      (.cons (.scalar (.vInt 2)) .nil))) .nil) "" = none := rfl

/-- C9 (amended): `flat_dictionary` returns a flat record without raising
on every payload in which each mapping-headed sequence consists entirely of
mappings; a sequence mixing a mapping first element with non-mapping
elements makes it raise. -/
theorem flatten_total_on_wellformed (data : JEntries) (pfx : String)
    (h : wfEntries data = true) : (flat_dictionary data pfx).isSome = true :=
  flatEntries_isSome_of_wf data h pfx []

/-- Witness for the C9 theorem at a concrete input. -/
theorem flatten_total_on_wellformed_witness :
    (flat_dictionary (.cons "a" (.dict (.cons "b" (.scalar (.vInt 1)) .nil)) .nil)
      "").isSome = true :=
  flatten_total_on_wellformed
    (.cons "a" (.dict (.cons "b" (.scalar (.vInt 1)) .nil)) .nil) "" rfl

end DhelosWix
